import Mathlib

/-!
# Verification of the shyaml-rs path-addressable tree engine

This development gives a shallow embedding, in Lean 4, of the core of the
shyaml-rs repository: the tag mini-language parser (src/tag.rs), the
dot-notation path resolver (src/yaml/path.rs), the mutation engine
(src/yaml/mutation.rs), the owned query traversal (src/yaml/query.rs) and
the overlay merge engine (src/yaml/merge.rs).

Modelling conventions:
* Rust `String` / `&str` values are modelled as `List Char`.
* `fyaml::Value` is modelled by the inductive `Value` below; mappings
  (`indexmap::IndexMap<Value, Value>`) are modelled as ordered association
  lists `List (Value × Value)` whose operations mirror the IndexMap API
  (`get`, `insert` replacing in place, `shift_remove`).
* Value equality (Rust `==`, i.e. the derived `PartialEq`, with IndexMap
  equality being order-insensitive) is modelled by the mutually recursive
  boolean function `beqV`.
* `f64` payloads of `fyaml::Number` are modelled by their bit pattern
  (`Number.float`); no verified claim depends on floating-point equality
  semantics (NaN / signed zero behave differently from the model).
* Error values carry structured kinds instead of the formatted `String`
  messages built with `format!` in the source; each constructor is
  documented with the message it stands for.
* The mutually recursive merge engine (`merge_values`, `apply_policy`,
  `apply_default_merge` and the mapping-merge loop) is embedded as a
  mutual block with a well-founded termination measure `muV` counting
  tree nodes (the recursion is not structural because tag stripping may
  rebuild a `Tagged` node); concrete runs are evaluated with `simp` over
  the equation lemmas.
-/

set_option maxHeartbeats 1000000
set_option linter.unusedVariables false
set_option linter.unnecessarySeqFocus false

namespace Shyaml

/-- Merge operation extracted from a tag (src/tag.rs, `MergeOp`). -/
inductive MergeOp where
  | replace
  | append
  | prepend
deriving DecidableEq, Repr

/-- Result of parsing a tag string (src/tag.rs, `ParsedTag`):
the remaining tag after the merge directive is removed, and the extracted
merge operation, if any. -/
structure ParsedTag where
  remaining : Option (List Char)
  mergeOp : Option MergeOp
deriving DecidableEq, Repr

/-- Errors of tag parsing (src/tag.rs, `TagError`). -/
inductive TagError where
  | unknownOperation (op : List Char)
  | multipleMergeDirectives
  | unexpectedArguments (op : List Char)
  | emptyTag
deriving DecidableEq, Repr

/-- Kinds of `Error::Path` errors; each constructor abstracts one of the
`format!` message shapes built in src/yaml/path.rs and src/yaml/mutation.rs.
The formatted path/segment payloads are dropped: no claim inspects them. -/
inductive PathErrKind where
  /-- message is exactly the string used for an empty path -/
  | emptyPath
  /-- non-integer index provided on a sequence -/
  | nonIntegerIndex
  /-- index out of range for the sequence length -/
  | indexOutOfRange
  /-- missing key in struct -/
  | missingKey
  /-- cannot traverse scalar at an intermediate segment -/
  | traverseScalar
  /-- cannot set value on scalar at the last segment -/
  | setOnScalar
  /-- cannot delete from scalar -/
  | deleteFromScalar
  /-- cannot delete from empty document (`del` on a `Null` root) -/
  | deleteEmptyDoc
deriving DecidableEq, Repr

/-- The error type of src/yaml/error.rs (`Error`), with structured payloads
in place of the formatted strings.  `Error::Base(TagError::to_string(..))`
(the image of the `From<TagError>` conversion) is modelled by `fromTag`,
which keeps the originating `TagError` (its display string determines it).
The `Fy` variant (errors of the external fyaml library) is unreachable in
the embedded core and is omitted. -/
inductive Err where
  | typeE
  | io
  | base
  | path (k : PathErrKind)
  | fromTag (e : TagError)
deriving DecidableEq, Repr

/-- `fyaml::Number`: signed integer, unsigned integer or floating point.
The `f64` payload is modelled by its bit pattern. -/
inductive Number where
  | int (i : Int)
  | uint (n : Nat)
  | float (bits : Nat)
deriving DecidableEq, Repr

/-- `fyaml::Value`: the generic YAML value tree.  A mapping is an ordered
association list (the model of `IndexMap<Value, Value>`); a tagged node is
a tag string plus one inner value (`fyaml::TaggedValue`). -/
inductive Value where
  | null
  | bool (b : Bool)
  | num (n : Number)
  | str (s : List Char)
  | seq (xs : List Value)
  | map (es : List (Value × Value))
  | tagged (tag : List Char) (v : Value)
deriving Repr

-- =============================================================================
-- Tag parser (src/tag.rs)
-- =============================================================================

/-- Strip one leading `!` (src/tag.rs line 139, `strip_prefix('!')`,
falling back to the unchanged string). -/
def stripLeadingBang : List Char → List Char
  | '!' :: rest => rest
  | s => s

/-- Worker for `split_tag_parts` (src/tag.rs lines 175-200): scan the
characters tracking parenthesis depth (`saturating_sub` on `)`), splitting
on `;` at depth 0 and skipping empty parts; `cur` is the pending slice. -/
def stpGo : List Char → Nat → List Char → List (List Char)
  | [], _, cur => if cur.isEmpty then [] else [cur]
  | c :: rest, depth, cur =>
    if c = '(' then stpGo rest (depth + 1) (cur ++ [c])
    else if c = ')' then stpGo rest (depth - 1) (cur ++ [c])
    else if c = ';' && depth == 0 then
      if cur.isEmpty then stpGo rest depth [] else cur :: stpGo rest depth []
    else stpGo rest depth (cur ++ [c])

/-- Split tag content on `;` outside parentheses (src/tag.rs,
`split_tag_parts`). -/
def splitTagParts (content : List Char) : List (List Char) :=
  stpGo content 0 []

/-- Strip a literal prefix from a character list, returning the rest
(Rust `str::strip_prefix` on a string pattern). -/
def stripPre : List Char → List Char → Option (List Char)
  | [], s => some s
  | _ :: _, [] => none
  | p :: ps, c :: cs => if p = c then stripPre ps cs else none

/-- Parse a single tag part as a possible merge directive (src/tag.rs,
`parse_merge_part`): strip the `merge:` head; reject parenthesized
arguments (naming the text before the `(`); accept exactly
`replace` / `append` / `prepend`; otherwise an unknown-operation error. -/
def parseMergePart (part : List Char) : Except TagError (Option MergeOp) :=
  match stripPre "merge:".toList part with
  | none => .ok none
  | some content =>
    if content.contains '(' then
      .error (.unexpectedArguments (content.takeWhile (· ≠ '(')))
    else if content = ['r', 'e', 'p', 'l', 'a', 'c', 'e'] then .ok (some .replace)
    else if content = ['a', 'p', 'p', 'e', 'n', 'd'] then .ok (some .append)
    else if content = ['p', 'r', 'e', 'p', 'e', 'n', 'd'] then .ok (some .prepend)
    else .error (.unknownOperation content)

/-- The loop of `parse_tag` over the split parts (src/tag.rs lines
147-159): collect at most one merge directive (a second is an error) and
the non-merge parts in order. -/
def ptGo : List (List Char) → Option MergeOp → List (List Char) →
    Except TagError ParsedTag
  | [], op, rem =>
    .ok { remaining :=
            if rem.isEmpty then none
            else some ('!' :: (rem.intersperse [';']).flatten),
          mergeOp := op }
  | p :: rest, op, rem =>
    match parseMergePart p with
    | .error e => .error e
    | .ok (some o) =>
      match op with
      | some _ => .error .multipleMergeDirectives
      | none => ptGo rest (some o) rem
    | .ok none => ptGo rest op (rem ++ [p])

/-- Whitespace trim of both ends (Rust `str::trim`; ASCII whitespace
suffices for every tag the engine handles). -/
def trimChars (s : List Char) : List Char :=
  ((s.dropWhile Char.isWhitespace).reverse.dropWhile Char.isWhitespace).reverse

/-- `parse_tag` (src/tag.rs lines 132-172): trim, reject empty, strip an
optional leading `!`, reject empty content, split into parts and process
them, rebuilding the remaining tag as `!` + parts rejoined with `;`. -/
def parseTag (tag : List Char) : Except TagError ParsedTag :=
  let tag := trimChars tag
  if tag.isEmpty then .error .emptyTag
  else
    let content := stripLeadingBang tag
    if content.isEmpty then .error .emptyTag
    else ptGo (splitTagParts content) none []

-- quick sanity checks against the unit tests of src/tag.rs
example : parseTag "!merge:replace".toList =
    .ok { remaining := none, mergeOp := some .replace } := rfl
example : parseTag "!literal;merge:append".toList =
    .ok { remaining := some "!literal".toList, mergeOp := some .append } := rfl
example : parseTag "!a;merge:prepend;b".toList =
    .ok { remaining := some "!a;b".toList, mergeOp := some .prepend } := rfl
example : parseTag "!custom(a;b;c);merge:append".toList =
    .ok { remaining := some "!custom(a;b;c)".toList, mergeOp := some .append } := rfl
example : parseTag "!merge:unknown".toList =
    .error (.unknownOperation "unknown".toList) := rfl
example : parseTag "!merge:replace;merge:append".toList =
    .error .multipleMergeDirectives := rfl
example : parseTag "!merge:replace(foo)".toList =
    .error (.unexpectedArguments "replace".toList) := rfl
example : parseTag "!".toList = .error .emptyTag := rfl
example : parseTag "  !merge:replace  ".toList =
    .ok { remaining := none, mergeOp := some .replace } := rfl
example : parseTag "merge:replace".toList =
    .ok { remaining := none, mergeOp := some .replace } := rfl

-- =============================================================================
-- Value equality (Rust `==` on `fyaml::Value`)
-- =============================================================================

mutual

/-- Rust `==` on `fyaml::Value` (the derived `PartialEq`): scalars compare
structurally, sequences elementwise in order, tagged nodes by tag string
and inner value; mappings follow `IndexMap::eq` — equal length and every
key/value pair of the left map present (under this same equality) in the
right map, regardless of order.  The left operand is the query side in
map lookups (`query == stored`). -/
def beqV : Value → Value → Bool
  | .null, .null => true
  | .bool x, .bool y => x == y
  | .num x, .num y => x == y
  | .str s, .str t => s == t
  | .seq xs, .seq ys => beqL xs ys
  | .map xs, .map ys => xs.length == ys.length && beqSub xs ys
  | .tagged t v, .tagged t₂ v₂ => t == t₂ && beqV v v₂
  | _, _ => false

/-- Elementwise equality of two value lists (Rust `Vec<Value> ==`). -/
def beqL : List Value → List Value → Bool
  | [], [] => true
  | x :: xs, y :: ys => beqV x y && beqL xs ys
  | _, _ => false

/-- Every entry of the first map is present in the second
(the `iter().all(..)` half of `IndexMap::eq`). -/
def beqSub : List (Value × Value) → List (Value × Value) → Bool
  | [], _ => true
  | (k, v) :: xs, ys => beqLk k v ys && beqSub xs ys

/-- Look up key `k` in `ys` (first stored key `==` to it) and compare the
stored value with `w` (the `other.get(key) == value` step of
`IndexMap::eq`). -/
def beqLk : Value → Value → List (Value × Value) → Bool
  | _, _, [] => false
  | k, w, (k₂, v₂) :: ys => if beqV k k₂ then beqV w v₂ else beqLk k w ys

end

/-- String values compare by list equality. -/
theorem beqV_str (s t : List Char) : beqV (.str s) (.str t) = (s == t) := by
  simp [beqV]

theorem beqV_str_refl (s : List Char) : beqV (.str s) (.str s) = true := by
  simp [beqV_str]

-- =============================================================================
-- IndexMap operations on the association-list model
-- =============================================================================

/-- `IndexMap::get`: the value of the first stored entry whose key is `==`
to the query key. -/
def listLookup (k : Value) : List (Value × Value) → Option Value
  | [] => none
  | (k₂, v) :: es => if beqV k k₂ then some v else listLookup k es

/-- `IndexMap::contains_key`. -/
def containsM (es : List (Value × Value)) (k : Value) : Bool :=
  (listLookup k es).isSome

/-- `IndexMap::insert`: if an equivalent key exists, the stored key stays
in place and its value is updated; otherwise the pair is appended. -/
def insertM : List (Value × Value) → Value → Value → List (Value × Value)
  | [], k, v => [(k, v)]
  | (k₂, v₂) :: es, k, v =>
    if beqV k k₂ then (k₂, v) :: es else (k₂, v₂) :: insertM es k v

/-- `IndexMap::shift_remove`: remove the entry with an equivalent key,
preserving the order of the other entries. -/
def shiftRemoveM : List (Value × Value) → Value → List (Value × Value)
  | [], _ => []
  | (k₂, v₂) :: es, k =>
    if beqV k k₂ then es else (k₂, v₂) :: shiftRemoveM es k

-- =============================================================================
-- Path resolver (src/yaml/path.rs)
-- =============================================================================

/-- Worker for `split_path`: scan characters with an escape flag and the
pending segment (src/yaml/path.rs lines 11-33).  A pending escape at the
end of the input is dropped. -/
def spGo : List Char → Bool → List Char → List (List Char)
  | [], _, elem => [elem]
  | c :: rest, true, elem => spGo rest false (elem ++ [c])
  | c :: rest, false, elem =>
    if c = '\\' then spGo rest true elem
    else if c = '.' then elem :: spGo rest false []
    else spGo rest false (elem ++ [c])

/-- `split_path`: split a dot-notation path into components, with `\.` a
literal dot and `\\` a literal backslash. -/
def splitPath (path : List Char) : List (List Char) :=
  spGo path false []

example : splitPath "a.b\\.c.d".toList = ["a".toList, "b.c".toList, "d".toList] := rfl
example : splitPath "a..b".toList = ["a".toList, [], "b".toList] := rfl
example : splitPath "".toList = [[]] := rfl
example : splitPath "a\\".toList = ["a".toList] := rfl

/-- `split_path` always returns at least one (possibly empty) segment. -/
theorem spGo_ne_nil (s : List Char) (esc : Bool) (elem : List Char) :
    spGo s esc elem ≠ [] := by
  induction s generalizing esc elem with
  | nil => simp [spGo]
  | cons c rest ih =>
    cases esc <;> simp only [spGo]
    · split
      · exact ih _ _
      split
      · simp
      · exact ih _ _
    · exact ih _ _

theorem splitPath_ne_nil (p : List Char) : splitPath p ≠ [] :=
  spGo_ne_nil p false []

/-- Rust `i64::from_str`: optional sign, at least one digit, all digits,
within the `i64` range (overflow is a parse error). -/
def parseI64 (s : List Char) : Option Int :=
  let signDigits : Int × List Char :=
    match s with
    | '+' :: r => (1, r)
    | '-' :: r => (-1, r)
    | r => (1, r)
  let sign := signDigits.1
  let digits := signDigits.2
  if digits.isEmpty || !digits.all Char.isDigit then none
  else
    let n : Nat := digits.foldl (fun a c => a * 10 + (c.toNat - '0'.toNat)) 0
    let v : Int := sign * n
    if v < -(2 ^ 63) || 2 ^ 63 - 1 < v then none else some v

/-- `resolve_index` (src/yaml/path.rs lines 46-75): parse the segment as a
signed integer; negative `-k` resolves to `len - k`, failing when
`k > len`; the resolved index must be `< len`.  The `full_path` argument
only feeds the error messages in the source, which the model abstracts. -/
def resolveIndex (part : List Char) (len : Nat) (_fullPath : List Char) :
    Except Err Nat :=
  match parseI64 part with
  | none => .error (.path .nonIntegerIndex)
  | some idx =>
    if idx < 0 then
      let absIdx := (-idx).toNat
      if len < absIdx then .error (.path .indexOutOfRange)
      else if len ≤ len - absIdx then .error (.path .indexOutOfRange)
      else .ok (len - absIdx)
    else
      if len ≤ idx.toNat then .error (.path .indexOutOfRange)
      else .ok idx.toNat

example : resolveIndex "-1".toList 3 [] = .ok 2 := rfl
example : resolveIndex "-3".toList 3 [] = .ok 0 := rfl
example : resolveIndex "-4".toList 3 [] = .error (.path .indexOutOfRange) := rfl
example : resolveIndex "2".toList 3 [] = .ok 2 := rfl
example : resolveIndex "3".toList 3 [] = .error (.path .indexOutOfRange) := rfl
example : resolveIndex "foo".toList 3 [] = .error (.path .nonIntegerIndex) := rfl
example : resolveIndex "".toList 3 [] = .error (.path .nonIntegerIndex) := rfl

theorem resolveIndex_lt (part : List Char) (len : Nat) (fp : List Char)
    (idx : Nat) (h : resolveIndex part len fp = .ok idx) : idx < len := by
  unfold resolveIndex at h
  cases hp : parseI64 part with
  | none => rw [hp] at h; exact absurd h (by simp)
  | some i =>
    rw [hp] at h
    by_cases hneg : i < 0 <;> simp only [hneg, if_true, if_false, reduceIte] at h
    · split at h
      · exact absurd h (by simp)
      split at h
      · exact absurd h (by simp)
      rename_i h₁ h₂
      cases h
      omega
    · split at h
      · exact absurd h (by simp)
      rename_i h₁
      cases h
      omega

-- =============================================================================
-- Owned query traversal (src/yaml/query.rs)
-- =============================================================================

/-- `lookup_in_map` (src/yaml/query.rs lines 237-255): look up the string
key; if the segment is empty and no string key matches, also try a `Null`
key; otherwise a missing-key path error. -/
def lookupInMap (m : List (Value × Value)) (part : List Char) :
    Except Err Value :=
  match listLookup (.str part) m with
  | some v => .ok v
  | none =>
    if part.isEmpty then
      match listLookup .null m with
      | some v => .ok v
      | none => .error (.path .missingKey)
    else .error (.path .missingKey)

/-- The loop of `get_at_path` (src/yaml/query.rs lines 258-300): walk the
segments; mappings by key, sequences by resolved index, tagged nodes by
descending into a mapping or sequence inner value (a scalar inner value is
a traversal error), anything else is a traversal error. -/
def getGo : Value → List (List Char) → List Char → Except Err Value
  | cur, [], _ => .ok cur
  | cur, part :: rest, fp =>
    match cur with
    | .map m =>
      match lookupInMap m part with
      | .ok v => getGo v rest fp
      | .error e => .error e
    | .seq s =>
      match resolveIndex part s.length fp with
      | .ok idx => getGo (s.getD idx .null) rest fp
      | .error e => .error e
    | .tagged _ inner =>
      match inner with
      | .map m =>
        match lookupInMap m part with
        | .ok v => getGo v rest fp
        | .error e => .error e
      | .seq s =>
        match resolveIndex part s.length fp with
        | .ok idx => getGo (s.getD idx .null) rest fp
        | .error e => .error e
      | _ => .error (.path .traverseScalar)
    | _ => .error (.path .traverseScalar)

/-- `get_at_path` (src/yaml/query.rs): `None` path returns the whole
value, otherwise split the path and walk it. -/
def get_at_path (value : Value) (path : Option (List Char)) :
    Except Err Value :=
  match path with
  | none => .ok value
  | some p => getGo value (splitPath p) p

-- =============================================================================
-- Mutation engine (src/yaml/mutation.rs)
-- =============================================================================

/-- The loop of `set_value_at_path` (src/yaml/mutation.rs lines 29-83) as
a function from the current node, the current segment and the remaining
segments to the updated node.  On the last segment: insert/replace into a
mapping, assign into a resolved sequence index, error on anything else.
On an intermediate segment: auto-create an empty mapping for a missing
mapping key, resolve a sequence index (no auto-extension), error on
anything else — in particular a `Tagged` node is never descended into. -/
def setGo : Value → List Char → List (List Char) → Value → List Char →
    Except Err Value
  | cur, part, [], v, fp =>
    match cur with
    | .map m => .ok (.map (insertM m (.str part) v))
    | .seq s =>
      match resolveIndex part s.length fp with
      | .ok idx => .ok (.seq (s.set idx v))
      | .error e => .error e
    | _ => .error (.path .setOnScalar)
  | cur, part, p₂ :: rest, v, fp =>
    match cur with
    | .map m =>
      let k := Value.str part
      let m₂ := if containsM m k then m else insertM m k (.map [])
      match listLookup k m₂ with
      | some child =>
        match setGo child p₂ rest v fp with
        | .ok c₂ => .ok (.map (insertM m₂ k c₂))
        | .error e => .error e
      | none => .error (.path .missingKey)
    | .seq s =>
      match resolveIndex part s.length fp with
      | .ok idx =>
        match setGo (s.getD idx .null) p₂ rest v fp with
        | .ok c₂ => .ok (.seq (s.set idx c₂))
        | .error e => .error e
      | .error e => .error e
    | _ => .error (.path .traverseScalar)

/-- `set_value` (src/yaml/mutation.rs lines 10-16): a `Null` root is first
replaced with an empty mapping, then the path is walked.  `split_path`
never returns an empty list, so the empty-path guard of
`set_value_at_path` (line 32) is unreachable; it is kept as the `[]`
case. -/
def set_value (key : List Char) (newValue : Value) (base : Value) :
    Except Err Value :=
  let base := match base with
    | .null => Value.map []
    | b => b
  match splitPath key with
  | [] => .error (.path .emptyPath)
  | part :: rest => setGo base part rest newValue key

/-- The loop of `del_at_path` (src/yaml/mutation.rs lines 94-155): same
traversal as `setGo` but without auto-creation; the terminal step removes
a mapping entry (missing key is an error) or removes-and-shifts a
sequence element. -/
def delGo : Value → List Char → List (List Char) → List Char →
    Except Err Value
  | cur, part, [], fp =>
    match cur with
    | .map m =>
      if containsM m (.str part) then .ok (.map (shiftRemoveM m (.str part)))
      else .error (.path .missingKey)
    | .seq s =>
      match resolveIndex part s.length fp with
      | .ok idx => .ok (.seq (s.eraseIdx idx))
      | .error e => .error e
    | _ => .error (.path .deleteFromScalar)
  | cur, part, p₂ :: rest, fp =>
    match cur with
    | .map m =>
      match listLookup (.str part) m with
      | some child =>
        match delGo child p₂ rest fp with
        | .ok c₂ => .ok (.map (insertM m (.str part) c₂))
        | .error e => .error e
      | none => .error (.path .missingKey)
    | .seq s =>
      match resolveIndex part s.length fp with
      | .ok idx =>
        match delGo (s.getD idx .null) p₂ rest fp with
        | .ok c₂ => .ok (.seq (s.set idx c₂))
        | .error e => .error e
      | .error e => .error e
    | _ => .error (.path .traverseScalar)

/-- `del` (src/yaml/mutation.rs lines 86-99): deleting from a `Null` root
is an error; an empty path (a single empty segment) is an error. -/
def del (key : List Char) (base : Value) : Except Err Value :=
  match base with
  | .null => .error (.path .deleteEmptyDoc)
  | b =>
    match splitPath key with
    | [] => .error (.path .emptyPath)
    | part :: rest =>
      if rest.isEmpty && part.isEmpty then .error (.path .emptyPath)
      else delGo b part rest key

-- =============================================================================
-- Merge engine (src/yaml/merge.rs)
-- =============================================================================

/-- Merge policy for specific paths (src/yaml/merge.rs, `MergePolicy`). -/
inductive MergePolicy where
  | merge
  | replace
  | prepend
deriving DecidableEq, Repr

/-- The CLI policy table `HashMap<String, MergePolicy>`, modelled as an
association list with unique keys; `lookupPolicy` is `policies.get`. -/
abbrev Policies := List (List Char × MergePolicy)

def lookupPolicy (pols : Policies) (path : List Char) : Option MergePolicy :=
  match pols.find? (fun e => e.1 == path) with
  | some e => some e.2
  | none => none

/-- One-layer tag unwrap (`match value { Tagged(t) => &t.value, other }`,
used throughout src/yaml/merge.rs). -/
def stripTag : Value → Value
  | .tagged _ v => v
  | v => v

/-- The outermost tag, if any (`match overlay { Tagged(t) => Some(&t.tag) .. }`,
src/yaml/merge.rs lines 169-172). -/
def tagOf : Value → Option (List Char)
  | .tagged t _ => some t
  | _ => none

/-- The null-deletes-key test of the mapping merge (src/yaml/merge.rs
lines 243-247): the overlay value is `Null` or a `Tagged` whose immediate
inner value is `Null`. -/
def isNullStripped : Value → Bool
  | .null => true
  | .tagged _ inner =>
    match inner with
    | .null => true
    | _ => false
  | _ => false

/-- Modelled from the spec: non-string mapping keys are rendered via
their debug form (`format!("{:?}", key)`, src/yaml/merge.rs line 255).
The `Debug` instance of `fyaml::Value` lives outside src/, so this
stand-in renders only the constructor head; no settled claim depends on
its output (every exercised key is a string). -/
def debugRender : Value → List Char
  | .null => "Null".toList
  | .bool b => ("Bool(" ++ toString b ++ ")").toList
  | .num _ => "Number".toList
  | .str s => ("String(" ++ String.mk s ++ ")").toList
  | .seq _ => "Sequence".toList
  | .map _ => "Mapping".toList
  | .tagged _ _ => "Tagged".toList

/-- The key-to-path-segment rendering of the mapping merge
(src/yaml/merge.rs lines 253-256). -/
def keyStr : Value → List Char
  | .str s => s
  | k => debugRender k

/-- `extract_merge_directive` (src/yaml/merge.rs lines 70-85): parse the
outermost tag; the stripped value keeps the remaining (non-merge) tag if
there is one.  A `TagError` surfaces through `From<TagError> for Error`
(modelled by `Err.fromTag`). -/
def extractMergeDirective : Value → Except Err (Option MergeOp × Value)
  | .tagged tag v =>
    match parseTag tag with
    | .error e => .error (.fromTag e)
    | .ok parsed =>
      let stripped := match parsed.remaining with
        | some rt => Value.tagged rt v
        | none => v
      .ok (parsed.mergeOp, stripped)
  | other => .ok (none, other)

/-- `validate_merge_op_for_type` (src/yaml/merge.rs lines 87-113):
`Append`/`Prepend` require the one-layer-stripped value to be a sequence;
`Replace` needs no check.  The error message (naming the op, the location
and the type name) is abstracted to `Err.typeE`. -/
def validateMergeOpForType (op : MergeOp) (value : Value)
    (_path : List Char) : Except Err Unit :=
  match op with
  | .replace => .ok ()
  | _ =>
    match stripTag value with
    | .seq _ => .ok ()
    | _ => .error .typeE

/-- Inline `MergeOp` to effective `MergePolicy` (src/yaml/merge.rs lines
148-152): `Append` maps to the structural default merge. -/
def policyOfOp : MergeOp → MergePolicy
  | .replace => .replace
  | .append => .merge
  | .prepend => .prepend

/-- Remove the first element `==` to `e`
(`result.iter().position(|x| x == &elt)` followed by `remove(pos)`,
src/yaml/merge.rs lines 294-296; no removal when there is no match). -/
def removeFirstEq : List Value → Value → List Value
  | [], _ => []
  | x :: xs, e => if beqV x e then xs else x :: removeFirstEq xs e

/-- The default sequence merge fold (src/yaml/merge.rs lines 292-298):
for each overlay element in order, remove the first equal element of the
running result, then push the overlay element onto the end. -/
def mergeSeqs (acc : List Value) : List Value → List Value
  | [] => acc
  | e :: rest => mergeSeqs (removeFirstEq acc e ++ [e]) rest

/-- The prepend fold (src/yaml/merge.rs lines 181-186): starting from the
overlay sequence, push each base element unless the running result
already contains an equal element. -/
def prependFold (result : List Value) : List Value → List Value
  | [] => result
  | e :: rest =>
    prependFold (if result.any (fun y => beqV y e) then result
                 else result ++ [e]) rest

/-- The `MergePolicy::Prepend` arm of `apply_policy` (src/yaml/merge.rs
lines 168-197): looking through one `Tagged` layer on each side, combine
two sequences with `prependFold` and re-attach the overlay tag; any other
shape combination returns the overlay outright. -/
def prependValues (base overlay : Value) : Except Err Value :=
  let overlayTag := tagOf overlay
  match stripTag base, stripTag overlay with
  | .seq baseSeq, .seq overlaySeq =>
    let rv := Value.seq (prependFold overlaySeq baseSeq)
    .ok (match overlayTag with
      | some t => .tagged t rv
      | none => rv)
  | _, _ => .ok overlay

-- Termination measure for the merge engine.  The recursion is not
-- structural: `extract_merge_directive` may rebuild a `Tagged` node with
-- a longer remaining-tag string, so the measure counts tree nodes and
-- ignores tag/scalar payloads.

mutual

/-- Node count of a value, ignoring payload strings. -/
def muV : Value → Nat
  | .null => 1
  | .bool _ => 1
  | .num _ => 1
  | .str _ => 1
  | .seq xs => 1 + muL xs
  | .map es => 1 + muM es
  | .tagged _ v => 1 + muV v

/-- Node count of a value list. -/
def muL : List Value → Nat
  | [] => 0
  | v :: r => muV v + muL r

/-- Node count of a map entry list. -/
def muM : List (Value × Value) → Nat
  | [] => 0
  | (k, v) :: r => muV k + muV v + muM r

end

theorem muV_pos (v : Value) : 1 ≤ muV v := by
  cases v <;> simp [muV]

theorem muV_stripTag_le (v : Value) : muV (stripTag v) ≤ muV v := by
  cases v <;> simp [stripTag, muV]

theorem muV_extract_le (o : Value) (op : Option MergeOp) (s : Value)
    (h : extractMergeDirective o = .ok (op, s)) : muV s ≤ muV o := by
  cases o <;> simp only [extractMergeDirective] at h
  case tagged tag v =>
    cases hp : parseTag tag <;> rw [hp] at h <;> dsimp only at h
    · exact absurd h (by simp)
    rename_i parsed
    cases hr : parsed.remaining <;> rw [hr] at h <;> dsimp only at h <;>
      simp only [Except.ok.injEq, Prod.mk.injEq] at h <;>
      rw [← h.2] <;> simp [muV]
  all_goals
    simp only [Except.ok.injEq, Prod.mk.injEq] at h
    rw [← h.2]

mutual

/-- `merge_values` (src/yaml/merge.rs lines 131-157): extract the inline
merge directive and the stripped overlay; an exact-path CLI policy wins
and is applied to the stripped overlay with no shape validation of the
inline directive; otherwise a validated inline directive picks the
policy; otherwise the structural default merge. -/
def mergeValues (base overlay : Value) (path : List Char)
    (pols : Policies) : Except Err Value :=
  match hE : extractMergeDirective overlay with
  | .error e => .error e
  | .ok (inlineOp, stripped) =>
    match lookupPolicy pols path with
    | some policy => applyPolicy policy base stripped path pols
    | none =>
      match inlineOp with
      | some op =>
        match validateMergeOpForType op stripped path with
        | .error e => .error e
        | .ok _ => applyPolicy (policyOfOp op) base stripped path pols
      | none => applyDefaultMerge base stripped path pols
termination_by 4 * muV overlay + 3
decreasing_by
  all_goals have := muV_extract_le overlay _ stripped hE
  all_goals omega

/-- `apply_policy` (src/yaml/merge.rs lines 159-200): `Replace` returns
the overlay verbatim, `Prepend` runs `prependValues`, `Merge` runs the
structural default merge. -/
def applyPolicy (policy : MergePolicy) (base overlay : Value)
    (path : List Char) (pols : Policies) : Except Err Value :=
  match policy with
  | .replace => .ok overlay
  | .prepend => prependValues base overlay
  | .merge => applyDefaultMerge base overlay path pols
termination_by 4 * muV overlay + 2
decreasing_by omega

/-- `apply_default_merge` (src/yaml/merge.rs lines 202-326): match on
the one-layer-stripped shapes in source order — null absorption, the
mapping merge, the sequence merge, scalar pairs replaced by the overlay,
and a type error for every other pairing (its message, naming both type
names and the location, is abstracted to `Err.typeE`). -/
def applyDefaultMerge (base overlay : Value) (path : List Char)
    (pols : Policies) : Except Err Value :=
  match hb : stripTag base, ho : stripTag overlay with
  | .null, .null => .ok overlay
  | _, .null => .ok base
  | .null, _ => .ok overlay
  | .map bm, .map om =>
    match mergeMapFold bm om path pols with
    | .ok result => .ok (.map result)
    | .error e => .error e
  | .seq bs, .seq os => .ok (.seq (mergeSeqs bs os))
  | .bool _, .bool _ => .ok overlay
  | .num _, .num _ => .ok overlay
  | .str _, .str _ => .ok overlay
  | .bool _, .num _ => .ok overlay
  | .bool _, .str _ => .ok overlay
  | .num _, .bool _ => .ok overlay
  | .num _, .str _ => .ok overlay
  | .str _, .bool _ => .ok overlay
  | .str _, .num _ => .ok overlay
  | _, _ => .error .typeE
termination_by 4 * muV overlay + 1
decreasing_by
  all_goals
    have h₁ := muV_stripTag_le overlay
    rw [ho] at h₁
    simp only [muV] at h₁
    omega

/-- The mapping merge loop (src/yaml/merge.rs lines 241-270): start from
the base map; a (tag-stripped) null overlay value shift-removes the key;
an existing key merges recursively at the extended dot-path; a new key is
inserted after stray-merge-tag stripping. -/
def mergeMapFold (result : List (Value × Value))
    (entries : List (Value × Value)) (path : List Char)
    (pols : Policies) : Except Err (List (Value × Value)) :=
  match entries with
  | [] => .ok result
  | (key, overlayValue) :: rest =>
    if isNullStripped overlayValue then
      mergeMapFold (shiftRemoveM result key) rest path pols
    else
      let ks := keyStr key
      let newPath := if path.isEmpty then ks else path ++ '.' :: ks
      match listLookup key result with
      | some baseValue =>
        match mergeValues baseValue overlayValue newPath pols with
        | .ok merged =>
          mergeMapFold (insertM result key merged) rest path pols
        | .error e => .error e
      | none =>
        match extractMergeDirective overlayValue with
        | .ok (_, strippedNew) =>
          mergeMapFold (insertM result key strippedNew) rest path pols
        | .error e => .error e
termination_by 4 * muM entries + 2
decreasing_by
  all_goals simp only [muM]
  all_goals
    have := muV_pos k₂
    have := muV_pos v
    omega

end

/-- The fold of `apply` (src/yaml/merge.rs lines 333-356) over already
loaded overlay documents: each overlay is merged into the running result
with the empty root path.  Reading and parsing the overlay files is I/O
done by an external collaborator; an overlay file whose text is empty
after trimming parses to `Value.null` before this fold (lines 344-350). -/
def applyOverlays (overlays : List Value) (pols : Policies)
    (base : Value) : Except Err Value :=
  match overlays with
  | [] => .ok base
  | o :: rest =>
    match mergeValues base o [] pols with
    | .ok r => applyOverlays rest pols r
    | .error e => .error e

-- =============================================================================
-- Claim C9: error characterization of parse_tag
-- =============================================================================

/-- Claim-side predicate (C9): the part matches `merge:<op>` and either
carries parenthesized arguments or names an operation outside
`{replace, append, prepend}` (case-sensitive). -/
def isMergePartBad (p : List Char) : Bool :=
  match stripPre "merge:".toList p with
  | none => false
  | some content =>
    content.contains '(' ||
    !(content = "replace".toList || content = "append".toList ||
      content = "prepend".toList)

/-- Claim-side predicate (C9): the part is a well-formed merge directive. -/
def isValidMergeDirective (p : List Char) : Bool :=
  match stripPre "merge:".toList p with
  | none => false
  | some content =>
    !content.contains '(' &&
    (content = "replace".toList || content = "append".toList ||
     content = "prepend".toList)

/-- Claim-side predicate (C9), following the claim's wording: parsing
fails exactly when the tag is empty after trimming and stripping an
optional leading `!`, or some part is a malformed merge directive, or
more than one well-formed merge directive appears among the parts. -/
def parseTagFailsSpec (t : List Char) : Bool :=
  let t := trimChars t
  let content := stripLeadingBang t
  t.isEmpty || content.isEmpty ||
  (splitTagParts content).any isMergePartBad ||
  decide (2 ≤ ((splitTagParts content).filter isValidMergeDirective).length)

theorem parseMergePart_error_iff (p : List Char) :
    (∃ e, parseMergePart p = .error e) ↔ isMergePartBad p = true := by
  unfold parseMergePart isMergePartBad
  cases hsp : stripPre "merge:".toList p with
  | none => simp
  | some content =>
    dsimp only
    split_ifs with h₁ h₂ h₃ h₄ <;> simp_all

theorem parseMergePart_ok_some_iff (p : List Char) :
    (∃ o, parseMergePart p = .ok (some o)) ↔ isValidMergeDirective p = true := by
  unfold parseMergePart isValidMergeDirective
  cases hsp : stripPre "merge:".toList p with
  | none => simp
  | some content =>
    dsimp only
    split_ifs with h₁ h₂ h₃ h₄ <;> simp_all

theorem ptGo_isOk (parts : List (List Char)) :
    ∀ (op : Option MergeOp) (rem : List (List Char)),
    (ptGo parts op rem).isOk =
      (!(parts.any isMergePartBad) &&
       decide ((parts.filter isValidMergeDirective).length +
         (if op.isSome then 1 else 0) ≤ 1)) := by
  induction parts with
  | nil =>
    intro op rem
    cases op <;> simp [ptGo, Except.isOk, Except.toBool]
  | cons p rest ih =>
    intro op rem
    simp only [ptGo]
    cases hp : parseMergePart p with
    | error e =>
      have hbad : isMergePartBad p = true :=
        (parseMergePart_error_iff p).mp ⟨e, hp⟩
      simp [Except.isOk, Except.toBool, hbad]
    | ok o =>
      have hnotbad : isMergePartBad p = false := by
        by_contra hcon
        obtain ⟨e, he⟩ := (parseMergePart_error_iff p).mpr
          (by revert hcon; cases isMergePartBad p <;> simp)
        rw [hp] at he
        exact absurd he (by simp)
      cases o with
      | some o =>
        have hvalid : isValidMergeDirective p = true :=
          (parseMergePart_ok_some_iff p).mp ⟨o, hp⟩
        cases op with
        | some op₂ =>
          simp [Except.isOk, Except.toBool, hnotbad, hvalid]
        | none =>
          rw [ih (some o) rem]
          simp [hnotbad, hvalid, Nat.add_comm]
      | none =>
        have hnotvalid : isValidMergeDirective p = false := by
          by_contra hcon
          obtain ⟨o, ho⟩ := (parseMergePart_ok_some_iff p).mpr
            (by revert hcon; cases isValidMergeDirective p <;> simp)
          rw [hp] at ho
          exact absurd ho (by simp)
        rw [ih op (rem ++ [p])]
        simp [hnotbad, hnotvalid]

/-- C9. `parse_tag` returns an error exactly when: the tag is empty after
trimming whitespace and stripping an optional leading `!`; or some part is
a `merge:` directive that carries parenthesized arguments or names an
operation outside `{replace, append, prepend}` (case-sensitive); or more
than one well-formed merge directive appears among the parts.  In every
other case parsing succeeds.  The representative inputs show the error
values produced: an unknown-operation error naming the operation, an
unexpected-arguments error naming the text before the `(` (this check
precedes the operation-name check), a multiple-merge-directives error and
the empty-tag errors. -/
theorem claimC9_parse_tag_error_characterization :
    (∀ t, (parseTag t).isOk = !parseTagFailsSpec t) ∧
    parseTag "!merge:foo".toList = .error (.unknownOperation "foo".toList) ∧
    parseTag "!merge:replace(x)".toList =
      .error (.unexpectedArguments "replace".toList) ∧
    parseTag "!merge:foo(x)".toList =
      .error (.unexpectedArguments "foo".toList) ∧
    parseTag "!merge:replace;merge:append".toList =
      .error .multipleMergeDirectives ∧
    parseTag "   ".toList = .error .emptyTag ∧
    parseTag "!".toList = .error .emptyTag := by
  refine ⟨?_, rfl, rfl, rfl, rfl, rfl, rfl⟩
  intro t
  unfold parseTag parseTagFailsSpec
  by_cases h₁ : (trimChars t).isEmpty <;>
    simp only [h₁, if_true, if_false, reduceIte]
  · simp [Except.isOk, Except.toBool]
  by_cases h₂ : (stripLeadingBang (trimChars t)).isEmpty <;>
    simp only [h₂, if_true, if_false, reduceIte]
  · simp [Except.isOk, Except.toBool]
  simp only [Bool.false_eq_true, if_false]
  rw [ptGo_isOk]
  generalize (splitTagParts (stripLeadingBang (trimChars t))).any isMergePartBad = A
  generalize (List.filter isValidMergeDirective
    (splitTagParts (stripLeadingBang (trimChars t)))).length = n
  cases A
  · simp only [Bool.not_false, Bool.true_and, Bool.false_or, Option.isSome_none,
      Bool.false_eq_true, if_false, Nat.add_zero, Bool.not_or]
    rcases Nat.lt_or_ge n 2 with h | h
    · rw [decide_eq_true (by omega : n ≤ 1), decide_eq_false (by omega : ¬ 2 ≤ n)]
      rfl
    · rw [decide_eq_false (by omega : ¬ n ≤ 1), decide_eq_true (by omega : 2 ≤ n)]
      rfl
  · simp

-- =============================================================================
-- Claim C10: mutation with the entirely empty path string
-- =============================================================================

/-- C10. `set` with the entirely empty path string does not fail with an
empty-path error: on a `Mapping` root it inserts/replaces the value under
the empty-string key, and a `Null` root is first replaced by an empty
mapping and then gets the empty-string key; only `delete` rejects the
entirely empty path string as a `PathError` (for a `Null` root the error
is the cannot-delete-from-empty-document `PathError` instead). -/
theorem claimC10_empty_path_set_del :
    (∀ m v, set_value [] v (.map m) = .ok (.map (insertM m (.str []) v))) ∧
    (∀ v, set_value [] v .null = .ok (.map [(.str [], v)])) ∧
    (∀ base, base ≠ .null → del [] base = .error (.path .emptyPath)) ∧
    del [] .null = .error (.path .deleteEmptyDoc) := by
  refine ⟨?_, ?_, ?_, rfl⟩
  · intro m v
    simp [set_value, splitPath, spGo, setGo]
  · intro v
    simp [set_value, splitPath, spGo, setGo, insertM]
  · intro base hb
    cases base <;> simp [del, splitPath, spGo] at hb ⊢

theorem claimC10_empty_path_set_del_witness :
    del [] (.map []) = .error (.path .emptyPath) :=
  claimC10_empty_path_set_del.2.2.1 (.map []) (by intro h; cases h)

-- =============================================================================
-- Claim C6: set-then-get round trip
-- =============================================================================

theorem listLookup_insertM_self (m : List (Value × Value)) (k v : Value)
    (hk : beqV k k = true) : listLookup k (insertM m k v) = some v := by
  induction m with
  | nil => simp [insertM, listLookup, hk]
  | cons e es ih =>
    obtain ⟨k₂, v₂⟩ := e
    by_cases h : beqV k k₂ <;> simp [insertM, listLookup, h, ih]

/-- The traversal loops of `set_value_at_path` and `get_at_path` agree:
whenever the set loop succeeds, re-reading the same segments from the
updated tree returns exactly the written value. -/
theorem setGo_getGo (rest : List (List Char)) :
    ∀ (cur : Value) (part : List Char) (v r : Value) (fp : List Char),
    setGo cur part rest v fp = .ok r →
    getGo r (part :: rest) fp = .ok v := by
  induction rest with
  | nil =>
    intro cur part v r fp h
    cases cur <;> simp only [setGo] at h
    all_goals try exact absurd h (fun hc => Except.noConfusion hc)
    case map m =>
      cases h
      simp [getGo, lookupInMap,
        listLookup_insertM_self _ _ _ (beqV_str_refl part)]
    case seq s =>
      split at h
      case _ idx hri =>
        cases h
        have hlt : idx < s.length := resolveIndex_lt _ _ _ _ hri
        simp only [getGo, List.length_set, hri]
        rw [List.getD_eq_getElem?_getD, List.getElem?_set_eq_of_lt _ hlt]
        simp [getGo]
      case _ e hri => exact absurd h (by simp)
  | cons p₂ rest₂ ih =>
    intro cur part v r fp h
    cases cur <;> simp only [setGo] at h
    all_goals try exact absurd h (fun hc => Except.noConfusion hc)
    case map m =>
      split at h
      case _ child hlk =>
        split at h
        case _ c₂ hsg =>
          cases h
          simp only [getGo, lookupInMap,
            listLookup_insertM_self _ _ _ (beqV_str_refl part)]
          exact ih child p₂ v c₂ fp hsg
        case _ e hsg => exact absurd h (by simp)
      case _ hlk => exact absurd h (by simp)
    case seq s =>
      split at h
      case _ idx hri =>
        split at h
        case _ c₂ hsg =>
          cases h
          have hlt : idx < s.length := resolveIndex_lt _ _ _ _ hri
          simp only [getGo, List.length_set, hri]
          rw [List.getD_eq_getElem?_getD, List.getElem?_set_eq_of_lt _ hlt]
          simp only [Option.getD_some]
          exact ih _ p₂ v c₂ fp hsg
        case _ e hsg => exact absurd h (by simp)
      case _ e hri => exact absurd h (by simp)

/-- Claim-side predicate (C6), following the claim's hypothesis: walking
all-but-last segments from the (null-replaced) root, every segment either
resolves to an existing container (a mapping value under the key, or an
in-range sequence element that is a container) or is auto-creatable as an
intermediate mapping (a missing key of a mapping; everything below an
auto-created empty mapping is again auto-creatable). -/
def parentsOkSpec (root : Value) (parts : List (List Char)) : Bool :=
  let root := match root with
    | .null => Value.map []
    | r => r
  go root parts
where
  isContainer : Value → Bool
    | .map _ => true
    | .seq _ => true
    | _ => false
  go : Value → List (List Char) → Bool
    | _, [] => true
    | _, [_] => true
    | cur, part :: rest =>
      match cur with
      | .map m =>
        match listLookup (.str part) m with
        | some child => isContainer child && go child rest
        | none => true
      | .seq s =>
        match resolveIndex part s.length [] with
        | .ok idx => isContainer (s.getD idx .null) && go (s.getD idx .null) rest
        | .error _ => false
      | _ => false

/-- C6 counterexample. For base `{a: [x]}` and path `a.5`: the only
all-but-last segment `a` resolves to an existing container (the sequence),
so the claim's hypothesis holds, yet `set` fails with an out-of-range
index error on the last segment: the claim as stated is false. -/
theorem claimC6_counterexample :
    parentsOkSpec (.map [(.str "a".toList, .seq [.str "x".toList])])
      (splitPath "a.5".toList) = true ∧
    set_value "a.5".toList (.str "v".toList)
      (.map [(.str "a".toList, .seq [.str "x".toList])]) =
      .error (.path .indexOutOfRange) := by
  constructor
  · simp [parentsOkSpec, parentsOkSpec.go, parentsOkSpec.isContainer,
      splitPath, spGo, listLookup, beqV, beqL]
  · simp [set_value, splitPath, spGo, setGo, containsM, listLookup,
      insertM, beqV, resolveIndex, parseI64]

/-- C6 as amended: the hypothesis must additionally cover the final step
(the node reached by the walk accepts the assignment: a mapping, or a
sequence whose last segment resolves in range) — equivalently, whenever
`set(root, p, v)` succeeds, `get` applied to the result at `p` returns
exactly `v`. -/
theorem claimC6_set_then_get (key : List Char) (v base r : Value)
    (h : set_value key v base = .ok r) :
    get_at_path r (some key) = .ok v := by
  unfold set_value at h
  cases hsp : splitPath key with
  | nil => exact absurd (hsp ▸ splitPath_ne_nil key) (by simp)
  | cons part rest =>
    simp only [hsp] at h
    unfold get_at_path
    dsimp only
    rw [hsp]
    exact setGo_getGo rest _ part v r key h

theorem claimC6_set_then_get_witness :
    get_at_path
      (.map [(.str "a".toList, .map [(.str "b".toList, .str "v".toList)])])
      (some "a.b".toList) = .ok (.str "v".toList) :=
  claimC6_set_then_get "a.b".toList (.str "v".toList)
    (.map [(.str "a".toList, .map [])])
    (.map [(.str "a".toList, .map [(.str "b".toList, .str "v".toList)])])
    (by simp [set_value, splitPath, spGo, setGo, containsM, listLookup,
      insertM, beqV])

-- =============================================================================
-- Claim C7: Tagged nodes under mutation and query traversal
-- =============================================================================

/-- A value that is neither a mapping nor a sequence (the shapes the
query traversal refuses to descend into). -/
def isScalarShape : Value → Bool
  | .map _ => false
  | .seq _ => false
  | _ => true

/-- C7 counterexample.  For root `{a: !t {b: 1}}` and path `a.b`, the
segment `a` resolves to a `Tagged` node whose inner value is a mapping;
the claim says `set` and `delete` descend into it, but both fail with a
`PathError` (`cannot set value on scalar` / `cannot delete from scalar`):
the claim as stated is false. -/
theorem claimC7_counterexample :
    set_value "a.b".toList (.str "2".toList)
      (.map [(.str "a".toList,
        .tagged "!t".toList (.map [(.str "b".toList, .str "1".toList)]))]) =
      .error (.path .setOnScalar) ∧
    del "a.b".toList
      (.map [(.str "a".toList,
        .tagged "!t".toList (.map [(.str "b".toList, .str "1".toList)]))]) =
      .error (.path .deleteFromScalar) := by
  constructor <;>
    simp [set_value, del, splitPath, spGo, setGo, delGo, containsM,
      listLookup, insertM, beqV]

/-- C7 as amended.  The transparent descent through `Tagged` belongs to
the query traversal (`get_at_path`): a `Tagged` node with a mapping or
sequence inner value behaves like that inner value for the remaining
segments, and a scalar inner value with segments remaining is a traversal
error.  The mutation operations `set` and `delete` never descend into
`Tagged`: a `Tagged` node reached at any segment is a `PathError`
regardless of its inner shape (set-on-scalar / delete-from-scalar at the
final segment, traverse-scalar at an intermediate one). -/
theorem claimC7_tagged_traversal :
    (∀ tag inner part v fp,
      setGo (.tagged tag inner) part [] v fp =
        .error (.path .setOnScalar)) ∧
    (∀ tag inner part p₂ rest v fp,
      setGo (.tagged tag inner) part (p₂ :: rest) v fp =
        .error (.path .traverseScalar)) ∧
    (∀ tag inner part fp,
      delGo (.tagged tag inner) part [] fp =
        .error (.path .deleteFromScalar)) ∧
    (∀ tag inner part p₂ rest fp,
      delGo (.tagged tag inner) part (p₂ :: rest) fp =
        .error (.path .traverseScalar)) ∧
    (∀ tag m part rest fp,
      getGo (.tagged tag (.map m)) (part :: rest) fp =
        getGo (.map m) (part :: rest) fp) ∧
    (∀ tag s part rest fp,
      getGo (.tagged tag (.seq s)) (part :: rest) fp =
        getGo (.seq s) (part :: rest) fp) ∧
    (∀ tag inner part rest fp, isScalarShape inner = true →
      getGo (.tagged tag inner) (part :: rest) fp =
        .error (.path .traverseScalar)) := by
  refine ⟨fun _ _ _ _ _ => rfl, fun _ _ _ _ _ _ _ => rfl,
    fun _ _ _ _ => rfl, fun _ _ _ _ _ _ => rfl,
    fun _ _ _ _ _ => rfl, fun _ _ _ _ _ => rfl, ?_⟩
  intro tag inner part rest fp hsc
  cases inner <;> simp [isScalarShape] at hsc <;> rfl

theorem claimC7_tagged_traversal_witness :
    getGo (.tagged "!t".toList (.str "x".toList)) ["a".toList] [] =
      .error (.path .traverseScalar) :=
  claimC7_tagged_traversal.2.2.2.2.2.2 "!t".toList (.str "x".toList)
    "a".toList [] [] rfl

-- =============================================================================
-- Claim C2: the structural default merge of two sequences
-- =============================================================================

theorem removeFirstEq_eq_eraseP (acc : List Value) (e : Value) :
    removeFirstEq acc e = acc.eraseP (fun x => beqV x e) := by
  induction acc with
  | nil => rfl
  | cons x xs ih =>
    by_cases h : beqV x e <;>
      simp [removeFirstEq, List.eraseP_cons, h, ih]

theorem mergeSeqs_eq_foldl (os : List Value) :
    ∀ acc, mergeSeqs acc os =
      os.foldl (fun acc e => acc.eraseP (fun x => beqV x e) ++ [e]) acc := by
  induction os with
  | nil => intro acc; rfl
  | cons e rest ih =>
    intro acc
    simp [mergeSeqs, removeFirstEq_eq_eraseP, ih]

/-- C2. The structural default merge of two sequences starts from the
base sequence and, for each overlay element in order, removes the first
element of the running result `==` to it (if one exists anywhere), then
pushes the overlay element onto the end; in particular merging
`[a,b,c]` with `[b,d]` yields `[a,c,b,d]` and merging `[a,b]` with
`[c,b,c]` yields `[a,b,c]`. -/
theorem claimC2_sequence_default_merge :
    (∀ (bs os : List Value) (p : List Char) (π : Policies),
      applyDefaultMerge (.seq bs) (.seq os) p π =
        .ok (.seq (os.foldl
          (fun acc e => acc.eraseP (fun x => beqV x e) ++ [e]) bs))) ∧
    applyDefaultMerge
      (.seq [.str "a".toList, .str "b".toList, .str "c".toList])
      (.seq [.str "b".toList, .str "d".toList]) [] [] =
      .ok (.seq [.str "a".toList, .str "c".toList, .str "b".toList,
        .str "d".toList]) ∧
    applyDefaultMerge
      (.seq [.str "a".toList, .str "b".toList])
      (.seq [.str "c".toList, .str "b".toList, .str "c".toList]) [] [] =
      .ok (.seq [.str "a".toList, .str "b".toList, .str "c".toList]) := by
  refine ⟨?_, ?_, ?_⟩
  · intro bs os p π
    simp [applyDefaultMerge, stripTag, mergeSeqs_eq_foldl]
  · simp [applyDefaultMerge, stripTag, mergeSeqs, removeFirstEq, beqV, beqV_str]
  · simp [applyDefaultMerge, stripTag, mergeSeqs, removeFirstEq, beqV, beqV_str]

-- =============================================================================
-- Claim C4: the Prepend policy
-- =============================================================================

/-- A value whose outermost constructor is a sequence. -/
def isSeqShape : Value → Bool
  | .seq _ => true
  | _ => false

theorem prependFold_eq_foldl (bs : List Value) :
    ∀ acc, prependFold acc bs =
      bs.foldl (fun acc e =>
        if acc.any (fun y => beqV y e) then acc else acc ++ [e]) acc := by
  induction bs with
  | nil => intro acc; rfl
  | cons e rest ih =>
    intro acc
    simp [prependFold, ih]

/-- C4 counterexample.  Applying `Prepend` to base `[a, a]` and overlay
`[x]` yields `[x, a]`: the second base `a` is deduplicated against the
*running result* (which already received the first `a`), not only
against the overlay elements, so the claim's predicted `[x, a, a]` is
wrong. -/
theorem claimC4_counterexample :
    applyPolicy .prepend
      (.seq [.str "a".toList, .str "a".toList])
      (.seq [.str "x".toList]) [] [] =
      .ok (.seq [.str "x".toList, .str "a".toList]) ∧
    Value.seq [.str "x".toList, .str "a".toList] ≠
      Value.seq [.str "x".toList, .str "a".toList, .str "a".toList] := by
  constructor
  · simp [applyPolicy, prependValues, prependFold, stripTag, tagOf,
      beqV, beqV_str]
  · intro h
    simp at h

/-- C4 as amended.  When both sides are ultimately sequences (looking
through one `Tagged` layer each), `Prepend` yields the overlay elements
in order followed by each base element in order, where a base element is
kept exactly when no element `==` to it is already in the running result
(that is: it equals no overlay element and no earlier kept base element);
the overlay side's tag, if any, is preserved on the result.  If either
side is not ultimately a sequence, `Prepend` returns the overlay
outright. -/
theorem claimC4_prepend_policy :
    (∀ (base overlay : Value) (bs os : List Value) (p : List Char)
      (π : Policies),
      stripTag base = .seq bs → stripTag overlay = .seq os →
      applyPolicy .prepend base overlay p π =
        .ok (match tagOf overlay with
          | some t => .tagged t (.seq (bs.foldl
              (fun acc e => if acc.any (fun y => beqV y e) then acc
                else acc ++ [e]) os))
          | none => .seq (bs.foldl
              (fun acc e => if acc.any (fun y => beqV y e) then acc
                else acc ++ [e]) os))) ∧
    (∀ (base overlay : Value) (p : List Char) (π : Policies),
      isSeqShape (stripTag base) = false ∨
        isSeqShape (stripTag overlay) = false →
      applyPolicy .prepend base overlay p π = .ok overlay) := by
  constructor
  · intro base overlay bs os p π hb ho
    simp only [applyPolicy, prependValues, hb, ho]
    rw [prependFold_eq_foldl]
  · intro base overlay p π h
    simp only [applyPolicy, prependValues]
    cases hb : stripTag base <;> cases ho : stripTag overlay <;>
      first
      | rfl
      | (rw [hb, ho] at h; simp [isSeqShape] at h)

theorem claimC4_prepend_policy_witness :
    applyPolicy .prepend
      (.tagged "!b".toList (.seq [.str "a".toList]))
      (.tagged "!o".toList (.seq [.str "x".toList])) [] [] =
      .ok (.tagged "!o".toList
        (.seq [.str "x".toList, .str "a".toList])) := by
  have h := claimC4_prepend_policy.1
    (.tagged "!b".toList (.seq [.str "a".toList]))
    (.tagged "!o".toList (.seq [.str "x".toList]))
    [.str "a".toList] [.str "x".toList] [] [] rfl rfl
  rw [h]
  simp [tagOf, beqV, beqV_str]

-- =============================================================================
-- Claim C1: an exact-path CLI policy wins over the inline directive
-- =============================================================================

/-- C1.  Whenever the policy table has an exact entry for the accumulated
dot-path, `merge_values` applies that policy to the tag-stripped overlay:
the inline merge directive extracted from the overlay's tag is stripped
but neither shape-validated nor applied.  In particular, merging base
`{items: [a, b]}` with overlay `{items: !merge:prepend [x]}` under CLI
policy `items=replace` yields `{items: [x]}`. -/
theorem claimC1_cli_policy_precedence :
    (∀ (base overlay : Value) (path : List Char) (pols : Policies)
      (op : Option MergeOp) (stripped : Value) (pol : MergePolicy),
      extractMergeDirective overlay = .ok (op, stripped) →
      lookupPolicy pols path = some pol →
      mergeValues base overlay path pols =
        applyPolicy pol base stripped path pols) ∧
    mergeValues
      (.map [(.str "items".toList, .seq [.str "a".toList, .str "b".toList])])
      (.map [(.str "items".toList,
        .tagged "!merge:prepend".toList (.seq [.str "x".toList]))])
      [] [("items".toList, .replace)] =
      .ok (.map [(.str "items".toList, .seq [.str "x".toList])]) := by
  constructor
  · intro base overlay path pols op stripped pol h₁ h₂
    simp only [mergeValues, h₂]
    split
    · rename_i e hE
      rw [hE] at h₁
      exact absurd h₁ (by simp)
    · rename_i iOp s₂ hE
      rw [hE] at h₁
      simp only [Except.ok.injEq, Prod.mk.injEq] at h₁
      rw [h₁.2]
  · simp [mergeValues, applyPolicy, applyDefaultMerge, mergeMapFold,
      extractMergeDirective, parseTag, trimChars, stripLeadingBang,
      splitTagParts, stpGo, ptGo, parseMergePart, stripPre, lookupPolicy,
      isNullStripped, keyStr, listLookup, insertM, shiftRemoveM, beqV,
      beqL, beqSub, beqLk, validateMergeOpForType, stripTag, policyOfOp,
      mergeSeqs, removeFirstEq, prependValues, prependFold, tagOf]

theorem claimC1_cli_policy_precedence_witness :
    mergeValues .null
      (.tagged "!merge:prepend".toList (.seq [.str "x".toList]))
      "items".toList [("items".toList, .replace)] =
      applyPolicy .replace .null (.seq [.str "x".toList])
        "items".toList [("items".toList, .replace)] :=
  claimC1_cli_policy_precedence.1 .null
    (.tagged "!merge:prepend".toList (.seq [.str "x".toList]))
    "items".toList [("items".toList, .replace)]
    (some .prepend) (.seq [.str "x".toList]) .replace rfl rfl

-- =============================================================================
-- Claim C3: null deletes key in the structural default mapping merge
-- =============================================================================

/-- Number of stored entries whose key answers a lookup for `k`. -/
def countMatches (k : Value) (es : List (Value × Value)) : Nat :=
  (es.filter (fun e => beqV k e.1)).length

theorem listLookup_eq_none_of_countMatches_zero (k : Value)
    (es : List (Value × Value)) (h : countMatches k es = 0) :
    listLookup k es = none := by
  induction es with
  | nil => rfl
  | cons e rest ih =>
    obtain ⟨k₂, v₂⟩ := e
    by_cases hb : beqV k k₂
    · simp [countMatches, hb] at h
    · simp only [countMatches, List.filter_cons, hb] at h
      simp [listLookup, hb, ih h]

theorem countMatches_cons (k k₂ v₂ : Value) (es : List (Value × Value)) :
    countMatches k ((k₂, v₂) :: es) =
      (if beqV k k₂ then 1 else 0) + countMatches k es := by
  simp only [countMatches, List.filter_cons]
  split <;> simp [Nat.add_comm]

theorem countMatches_shiftRemoveM_self (k : Value)
    (es : List (Value × Value)) :
    countMatches k (shiftRemoveM es k) = countMatches k es - 1 := by
  induction es with
  | nil => rfl
  | cons e rest ih =>
    obtain ⟨k₂, v₂⟩ := e
    by_cases hb : beqV k k₂ <;>
      simp only [shiftRemoveM, hb, if_true, if_false, Bool.false_eq_true,
        reduceIte, countMatches_cons] <;>
      omega

theorem countMatches_shiftRemoveM_le (k q : Value)
    (es : List (Value × Value)) :
    countMatches k (shiftRemoveM es q) ≤ countMatches k es := by
  induction es with
  | nil => simp [shiftRemoveM]
  | cons e rest ih =>
    obtain ⟨k₂, v₂⟩ := e
    by_cases hb : beqV q k₂ <;>
      simp only [shiftRemoveM, hb, if_true, if_false, Bool.false_eq_true,
        reduceIte, countMatches_cons] <;>
      split <;> omega

theorem countMatches_insertM (k q v : Value)
    (es : List (Value × Value)) (hkq : beqV k q = false) :
    countMatches k (insertM es q v) = countMatches k es := by
  induction es with
  | nil => simp [insertM, countMatches, hkq]
  | cons e rest ih =>
    obtain ⟨k₂, v₂⟩ := e
    by_cases hb : beqV q k₂ <;>
      simp only [insertM, hb, if_true, if_false, Bool.false_eq_true,
        reduceIte, countMatches_cons] <;>
      omega

theorem mergeMapFold_countMatches_zero (k : Value) :
    ∀ (entries result : List (Value × Value)) (p : List Char)
    (π : Policies) (r : List (Value × Value)),
    countMatches k result = 0 →
    (∀ e ∈ entries, beqV k e.1 = false) →
    mergeMapFold result entries p π = .ok r →
    countMatches k r = 0 := by
  intro entries
  induction entries with
  | nil =>
    intro result p π r h₀ hkeys hf
    simp only [mergeMapFold, Except.ok.injEq] at hf
    rw [← hf]; exact h₀
  | cons e rest ih =>
    intro result p π r h₀ hkeys hf
    obtain ⟨k₂, ov⟩ := e
    have hk₂ : beqV k k₂ = false := hkeys (k₂, ov) (by simp)
    have hrest : ∀ e ∈ rest, beqV k e.1 = false :=
      fun e he => hkeys e (by simp [he])
    simp only [mergeMapFold] at hf
    split at hf
    · refine ih _ p π r ?_ hrest hf
      have := countMatches_shiftRemoveM_le k k₂ result
      omega
    · split at hf
      · rename_i baseValue hlk
        split at hf
        · rename_i merged hmv
          refine ih _ p π r ?_ hrest hf
          rw [countMatches_insertM k k₂ merged result hk₂]
          exact h₀
        · exact absurd hf (by simp)
      · split at hf
        · rename_i sv hex
          refine ih _ p π r ?_ hrest hf
          rw [countMatches_insertM k k₂ sv result hk₂]
          exact h₀
        · exact absurd hf (by simp)

theorem mergeMapFold_null_deletes (k nv : Value)
    (hnull : isNullStripped nv = true) (post : List (Value × Value))
    (hpost : ∀ e ∈ post, beqV k e.1 = false) :
    ∀ (pre result : List (Value × Value)) (p : List Char) (π : Policies)
    (r : List (Value × Value)),
    (∀ e ∈ pre, beqV k e.1 = false) →
    countMatches k result ≤ 1 →
    mergeMapFold result (pre ++ (k, nv) :: post) p π = .ok r →
    countMatches k r = 0 := by
  intro pre
  induction pre with
  | nil =>
    intro result p π r hpre h₁ hf
    simp only [List.nil_append, mergeMapFold, hnull, if_true] at hf
    refine mergeMapFold_countMatches_zero k post _ p π r ?_ hpost hf
    have := countMatches_shiftRemoveM_self k result
    omega
  | cons e pre₂ ih =>
    intro result p π r hpre h₁ hf
    obtain ⟨k₂, ov⟩ := e
    have hk₂ : beqV k k₂ = false := hpre (k₂, ov) (by simp)
    have hpre₂ : ∀ e ∈ pre₂, beqV k e.1 = false :=
      fun e he => hpre e (by simp [he])
    simp only [List.cons_append, mergeMapFold] at hf
    split at hf
    · refine ih _ p π r hpre₂ ?_ hf
      have := countMatches_shiftRemoveM_le k k₂ result
      omega
    · split at hf
      · rename_i baseValue hlk
        split at hf
        · rename_i merged hmv
          refine ih _ p π r hpre₂ ?_ hf
          rw [countMatches_insertM k k₂ merged result hk₂]
          exact h₁
        · exact absurd hf (by simp)
      · split at hf
        · rename_i sv hex
          refine ih _ p π r hpre₂ ?_ hf
          rw [countMatches_insertM k k₂ sv result hk₂]
          exact h₁
        · exact absurd hf (by simp)

/-- C3.  In the structural default merge of two mappings, every overlay
key whose (one-layer tag-stripped) value is `Null` is removed from the
result entirely, and no merge is attempted for that key (the base value
is not kept, as the merge-with-null rule would do): whenever the merge
succeeds, a lookup for that key in the result finds nothing.  The
hypotheses state the `IndexMap` well-formedness the source guarantees:
the base map answers a lookup for the key at most once and the other
overlay keys do not answer a lookup for it.  The rule applies recursively
at every nesting depth reached by the merge, as in the concrete example:
base `{keep: 1, remove: 2, nested: {a: 1, b: 2}}` merged with overlay
`{remove: null, nested: {b: null}}` yields `{keep: 1, nested: {a: 1}}`. -/
theorem claimC3_null_deletes_key :
    (∀ (bm pre post : List (Value × Value)) (k nv : Value)
      (p : List Char) (π : Policies) (r : Value),
      isNullStripped nv = true →
      (∀ e ∈ pre ++ post, beqV k e.1 = false) →
      countMatches k bm ≤ 1 →
      applyDefaultMerge (.map bm) (.map (pre ++ (k, nv) :: post)) p π =
        .ok r →
      ∃ m, r = .map m ∧ listLookup k m = none) ∧
    mergeValues
      (.map [(.str "keep".toList, .num (.uint 1)),
             (.str "remove".toList, .num (.uint 2)),
             (.str "nested".toList,
              .map [(.str "a".toList, .num (.uint 1)),
                    (.str "b".toList, .num (.uint 2))])])
      (.map [(.str "remove".toList, .null),
             (.str "nested".toList, .map [(.str "b".toList, .null)])])
      [] [] =
      .ok (.map [(.str "keep".toList, .num (.uint 1)),
                 (.str "nested".toList,
                  .map [(.str "a".toList, .num (.uint 1))])]) := by
  constructor
  · intro bm pre post k nv p π r hnull hkeys h₁ hf
    simp only [applyDefaultMerge, stripTag] at hf
    split at hf
    · rename_i m hfold
      refine ⟨m, by cases hf; rfl, ?_⟩
      refine listLookup_eq_none_of_countMatches_zero k m ?_
      refine mergeMapFold_null_deletes k nv hnull post
        (fun e he => hkeys e (by simp [he])) pre bm p π m
        (fun e he => hkeys e (by simp [he])) h₁ hfold
    · exact absurd hf (by simp)
  · simp [mergeValues, applyPolicy, applyDefaultMerge, mergeMapFold,
      extractMergeDirective, parseTag, trimChars, stripLeadingBang,
      splitTagParts, stpGo, ptGo, parseMergePart, stripPre, lookupPolicy,
      isNullStripped, keyStr, listLookup, insertM, shiftRemoveM, beqV,
      beqL, beqSub, beqLk, validateMergeOpForType, stripTag, policyOfOp,
      mergeSeqs, removeFirstEq, prependValues, prependFold, tagOf]

theorem claimC3_null_deletes_key_witness :
    ∃ m, (Value.map [] : Value) = .map m ∧
      listLookup (.str "a".toList) m = none :=
  claimC3_null_deletes_key.1
    [(.str "a".toList, .num (.uint 1))] [] [] (.str "a".toList) .null
    [] [] (.map [])
    rfl (by simp) (by simp [countMatches, beqV, beqV_str])
    (by simp [applyDefaultMerge, stripTag, mergeMapFold, isNullStripped,
      shiftRemoveM, beqV, beqV_str])

-- =============================================================================
-- Claim C5: the fate of the overlay's non-merge tag
-- =============================================================================

/-- Whether a value carries an outermost tag. -/
def hasTag : Value → Bool
  | .tagged _ _ => true
  | _ => false

/-- C5 counterexample.  Merging base `[a]` with the overlay
`!custom;merge:append [x]` (no CLI policy): the inline `merge:append`
maps to the structural default merge of two sequences, whose result is a
plain untagged sequence — the non-merge tag `!custom` is *not* retained
on the result, contradicting the claim's universal retention. -/
theorem claimC5_counterexample :
    mergeValues (.seq [.str "a".toList])
      (.tagged "!custom;merge:append".toList (.seq [.str "x".toList]))
      [] [] =
      .ok (.seq [.str "a".toList, .str "x".toList]) ∧
    hasTag (.seq [.str "a".toList, .str "x".toList]) = false := by
  constructor
  · simp [mergeValues, applyPolicy, applyDefaultMerge, mergeMapFold,
      extractMergeDirective, parseTag, trimChars, stripLeadingBang,
      splitTagParts, stpGo, ptGo, parseMergePart, stripPre, lookupPolicy,
      isNullStripped, keyStr, listLookup, insertM, shiftRemoveM, beqV,
      beqL, beqSub, beqLk, validateMergeOpForType, stripTag, policyOfOp,
      mergeSeqs, removeFirstEq, prependValues, prependFold, tagOf]
  · rfl

/-- Attach an optional tag. -/
def withTag : Option (List Char) → Value → Value
  | some t, v => .tagged t v
  | none, v => v

/-- The merge-directive extraction on a tagged node whose tag parses
with a non-merge remainder: the stripped value is the inner value
re-tagged with exactly that remainder. -/
theorem extractMergeDirective_tagged_some (tag rem : List Char)
    (inner : Value) (mop : Option MergeOp)
    (hp : parseTag tag = .ok { remaining := some rem, mergeOp := mop }) :
    extractMergeDirective (.tagged tag inner) = .ok (mop, .tagged rem inner) := by
  simp [extractMergeDirective, hp]

/-- `merge_values` operates on the tag-stripped overlay only: whichever
policy source ends up chosen (CLI table, inline directive or structural
default), the value handed to it is the stripped overlay — the extracted
merge directive is consumed by the policy dispatch and the original
(directive-carrying) overlay value reaches no policy. -/
theorem mergeValues_strips_overlay (base overlay : Value) (path : List Char)
    (pols : Policies) (op : Option MergeOp) (stripped : Value) :
    extractMergeDirective overlay = .ok (op, stripped) →
    mergeValues base overlay path pols =
      match lookupPolicy pols path with
      | some policy => applyPolicy policy base stripped path pols
      | none =>
        match op with
        | some o =>
          match validateMergeOpForType o stripped path with
          | .error e => .error e
          | .ok _ => applyPolicy (policyOfOp o) base stripped path pols
        | none => applyDefaultMerge base stripped path pols := by
  intro hE
  simp only [mergeValues]
  split
  · rename_i e h
    rw [hE] at h
    exact absurd h (by simp)
  · rename_i iOp s₂ h
    rw [hE] at h
    simp only [Except.ok.injEq, Prod.mk.injEq] at h
    obtain ⟨h1, h2⟩ := h
    subst h1
    subst h2
    cases lookupPolicy pols path with
    | some policy => rfl
    | none =>
      cases op with
      | some o => cases validateMergeOpForType o stripped path <;> rfl
      | none => rfl

/-- The accumulator of the `parse_tag` loop: on success, the remaining
tag is the accumulated non-merge parts plus the non-merge parts still to
come, each of which is one of the input parts and parses as a
non-directive. -/
theorem ptGo_remaining (parts : List (List Char)) :
    ∀ (op : Option MergeOp) (acc : List (List Char)) (parsed : ParsedTag),
    ptGo parts op acc = .ok parsed →
    ∃ rparts, (∀ p ∈ rparts, p ∈ parts ∧ parseMergePart p = .ok none) ∧
      parsed.remaining =
        (if (acc ++ rparts).isEmpty then none
         else some ('!' :: ((acc ++ rparts).intersperse [';']).flatten)) := by
  induction parts with
  | nil =>
    intro op acc parsed h
    refine ⟨[], by simp, ?_⟩
    simp only [ptGo, Except.ok.injEq] at h
    rw [← h]
    simp
  | cons p rest ih =>
    intro op acc parsed h
    simp only [ptGo] at h
    split at h
    · exact absurd h (by simp)
    · split at h
      · exact absurd h (by simp)
      · obtain ⟨rparts, hmem, heq⟩ := ih _ _ _ h
        exact ⟨rparts,
          fun q hq => ⟨List.mem_cons_of_mem _ (hmem q hq).1, (hmem q hq).2⟩,
          heq⟩
    · rename_i hp
      obtain ⟨rparts, hmem, heq⟩ := ih _ _ _ h
      refine ⟨p :: rparts, ?_, ?_⟩
      · intro q hq
        rcases List.mem_cons.mp hq with hq | hq
        · exact ⟨by simp [hq], hq ▸ hp⟩
        · exact ⟨List.mem_cons_of_mem _ (hmem q hq).1, (hmem q hq).2⟩
      · rw [heq]
        have : acc ++ [p] ++ rparts = acc ++ p :: rparts := by simp
        rw [this]

/-- On a successful parse, the remaining tag is `!` followed by exactly
the non-merge parts of the original tag, rejoined with `;`: no merge
directive component is among them. -/
theorem parseTag_remaining_parts (tag : List Char) (parsed : ParsedTag)
    (rem : List Char) (h : parseTag tag = .ok parsed)
    (hr : parsed.remaining = some rem) :
    ∃ parts, parts ≠ [] ∧
      (∀ p ∈ parts,
        p ∈ splitTagParts (stripLeadingBang (trimChars tag)) ∧
        parseMergePart p = .ok none) ∧
      rem = '!' :: (parts.intersperse [';']).flatten := by
  unfold parseTag at h
  by_cases h₁ : (trimChars tag).isEmpty <;>
    simp only [h₁, if_true, if_false, reduceIte] at h
  · exact absurd h (by simp)
  by_cases h₂ : (stripLeadingBang (trimChars tag)).isEmpty <;>
    simp only [h₂, if_true, if_false, reduceIte] at h
  · exact absurd h (by simp)
  simp only [Bool.false_eq_true, if_false] at h
  obtain ⟨rparts, hmem, heq⟩ := ptGo_remaining _ none [] parsed h
  rw [heq] at hr
  simp only [List.nil_append] at hr
  cases hre : rparts.isEmpty
  · rw [hre] at hr
    simp only [Bool.false_eq_true, if_false, Option.some.injEq] at hr
    exact ⟨rparts, by simp [← List.isEmpty_iff, hre], hmem, hr.symm⟩
  · rw [hre] at hr
    exact absurd hr (by simp)

/-- A CLI `Replace` entry returns the stripped overlay: the non-merge
tag components are retained on the overlay's inner value. -/
theorem mergeValues_cli_replace_retains_tag (base inner : Value)
    (tag rem : List Char) (mop : Option MergeOp) (path : List Char)
    (pols : Policies)
    (hp : parseTag tag = .ok { remaining := some rem, mergeOp := mop })
    (hl : lookupPolicy pols path = some .replace) :
    mergeValues base (.tagged tag inner) path pols =
      .ok (.tagged rem inner) := by
  rw [mergeValues_strips_overlay base _ path pols mop (.tagged rem inner)
    (extractMergeDirective_tagged_some tag rem inner mop hp), hl]
  simp [applyPolicy]

/-- An inline `merge:replace` directive (no CLI entry) returns the
stripped overlay: the non-merge tag components are retained. -/
theorem mergeValues_inline_replace_retains_tag (base inner : Value)
    (tag rem : List Char) (path : List Char) (pols : Policies)
    (hp : parseTag tag =
      .ok { remaining := some rem, mergeOp := some .replace })
    (hl : lookupPolicy pols path = none) :
    mergeValues base (.tagged tag inner) path pols =
      .ok (.tagged rem inner) := by
  rw [mergeValues_strips_overlay base _ path pols (some .replace)
    (.tagged rem inner)
    (extractMergeDirective_tagged_some tag rem inner (some .replace) hp), hl]
  simp [validateMergeOpForType, policyOfOp, applyPolicy]

/-- A CLI `Prepend` entry on two sequence shapes keeps the overlay's
non-merge tag on the combined sequence. -/
theorem mergeValues_cli_prepend_retains_tag (base : Value)
    (tag rem : List Char) (mop : Option MergeOp) (bs os : List Value)
    (path : List Char) (pols : Policies)
    (hp : parseTag tag = .ok { remaining := some rem, mergeOp := mop })
    (hl : lookupPolicy pols path = some .prepend)
    (hb : stripTag base = .seq bs) :
    mergeValues base (.tagged tag (.seq os)) path pols =
      .ok (.tagged rem (.seq (prependFold os bs))) := by
  rw [mergeValues_strips_overlay base _ path pols mop
    (.tagged rem (.seq os))
    (extractMergeDirective_tagged_some tag rem (.seq os) mop hp), hl]
  simp only [applyPolicy]
  simp only [prependValues, hb, tagOf]
  simp [stripTag]

/-- An inline `merge:prepend` directive (no CLI entry) on two sequence
shapes keeps the overlay's non-merge tag on the combined sequence. -/
theorem mergeValues_inline_prepend_retains_tag (base : Value)
    (tag rem : List Char) (bs os : List Value) (path : List Char)
    (pols : Policies)
    (hp : parseTag tag =
      .ok { remaining := some rem, mergeOp := some .prepend })
    (hl : lookupPolicy pols path = none)
    (hb : stripTag base = .seq bs) :
    mergeValues base (.tagged tag (.seq os)) path pols =
      .ok (.tagged rem (.seq (prependFold os bs))) := by
  rw [mergeValues_strips_overlay base _ path pols (some .prepend)
    (.tagged rem (.seq os))
    (extractMergeDirective_tagged_some tag rem (.seq os) (some .prepend) hp),
    hl]
  simp only [validateMergeOpForType, policyOfOp, applyPolicy]
  simp only [prependValues, hb, tagOf]
  simp [stripTag]

theorem applyDefaultMerge_seqs_untagged (bt ot : Option (List Char))
    (bs os : List Value) (p : List Char) (π : Policies) :
    applyDefaultMerge (withTag bt (.seq bs)) (withTag ot (.seq os)) p π =
      .ok (.seq (mergeSeqs bs os)) := by
  cases bt <;> cases ot <;> simp [withTag, applyDefaultMerge, stripTag]

theorem applyDefaultMerge_maps_untagged (bt ot : Option (List Char))
    (bm om : List (Value × Value)) (p : List Char) (π : Policies)
    (r : Value)
    (hf : applyDefaultMerge (withTag bt (.map bm)) (withTag ot (.map om))
      p π = .ok r) :
    hasTag r = false := by
  cases bt <;> cases ot <;>
    simp only [withTag, applyDefaultMerge, stripTag] at hf <;>
    split at hf <;>
    first
    | (cases hf; rfl)
    | exact absurd hf (by simp)

theorem mergeValues_custom_replace (base inner : Value) (p : List Char)
    (pols : Policies) (hl : lookupPolicy pols p = none) :
    mergeValues base (.tagged "!custom;merge:replace".toList inner) p pols =
      .ok (.tagged "!custom".toList inner) :=
  mergeValues_inline_replace_retains_tag base inner
    "!custom;merge:replace".toList "!custom".toList p pols rfl hl

/-- C5 as amended.  For every merge, whichever policy source is chosen,
the engine operates on the tag-stripped overlay: the policy dispatch
depends on the overlay only through the extracted directive and the
stripped value (first conjunct), and the stripped value's tag is `!`
followed by exactly the non-merge parts of the overlay's tag (second
conjunct) — so the merge directive component of the overlay's outermost
tag never appears in the result.  The non-merge tag components are
retained on the overlay's value when the applied policy returns the
overlay: `Replace` from the CLI table or inline (in particular an
overlay tagged `!custom;merge:replace` with no CLI entry for its path
yields a result tagged exactly `!custom`, for every base), and
`Prepend` from either source on sequence shapes.  But the structural
default merge of two sequences or two mappings returns an untagged
result, dropping the non-merge tag components of both sides. -/
theorem claimC5_merge_tag_stripping :
    (∀ (base overlay : Value) (path : List Char) (pols : Policies)
      (op : Option MergeOp) (stripped : Value),
      extractMergeDirective overlay = .ok (op, stripped) →
      mergeValues base overlay path pols =
        match lookupPolicy pols path with
        | some policy => applyPolicy policy base stripped path pols
        | none =>
          match op with
          | some o =>
            match validateMergeOpForType o stripped path with
            | .error e => .error e
            | .ok _ => applyPolicy (policyOfOp o) base stripped path pols
          | none => applyDefaultMerge base stripped path pols) ∧
    (∀ (tag : List Char) (parsed : ParsedTag) (rem : List Char),
      parseTag tag = .ok parsed → parsed.remaining = some rem →
      ∃ parts, parts ≠ [] ∧
        (∀ p ∈ parts,
          p ∈ splitTagParts (stripLeadingBang (trimChars tag)) ∧
          parseMergePart p = .ok none) ∧
        rem = '!' :: (parts.intersperse [';']).flatten) ∧
    (∀ (base inner : Value) (tag rem : List Char) (mop : Option MergeOp)
      (path : List Char) (pols : Policies),
      parseTag tag = .ok { remaining := some rem, mergeOp := mop } →
      lookupPolicy pols path = some .replace →
      mergeValues base (.tagged tag inner) path pols =
        .ok (.tagged rem inner)) ∧
    (∀ (base inner : Value) (tag rem : List Char) (path : List Char)
      (pols : Policies),
      parseTag tag = .ok { remaining := some rem, mergeOp := some .replace } →
      lookupPolicy pols path = none →
      mergeValues base (.tagged tag inner) path pols =
        .ok (.tagged rem inner)) ∧
    (∀ (base : Value) (tag rem : List Char) (mop : Option MergeOp)
      (bs os : List Value) (path : List Char) (pols : Policies),
      parseTag tag = .ok { remaining := some rem, mergeOp := mop } →
      lookupPolicy pols path = some .prepend →
      stripTag base = .seq bs →
      mergeValues base (.tagged tag (.seq os)) path pols =
        .ok (.tagged rem (.seq (prependFold os bs)))) ∧
    (∀ (base : Value) (tag rem : List Char) (bs os : List Value)
      (path : List Char) (pols : Policies),
      parseTag tag = .ok { remaining := some rem, mergeOp := some .prepend } →
      lookupPolicy pols path = none →
      stripTag base = .seq bs →
      mergeValues base (.tagged tag (.seq os)) path pols =
        .ok (.tagged rem (.seq (prependFold os bs)))) ∧
    (∀ (base inner : Value) (p : List Char) (pols : Policies),
      lookupPolicy pols p = none →
      mergeValues base (.tagged "!custom;merge:replace".toList inner) p pols =
        .ok (.tagged "!custom".toList inner)) ∧
    (∀ (bt ot : Option (List Char)) (bs os : List Value) (p : List Char)
      (π : Policies),
      applyDefaultMerge (withTag bt (.seq bs)) (withTag ot (.seq os)) p π =
        .ok (.seq (mergeSeqs bs os))) ∧
    (∀ (bt ot : Option (List Char)) (bm om : List (Value × Value))
      (p : List Char) (π : Policies) (r : Value),
      applyDefaultMerge (withTag bt (.map bm)) (withTag ot (.map om)) p π =
        .ok r →
      hasTag r = false) :=
  ⟨mergeValues_strips_overlay, parseTag_remaining_parts,
   mergeValues_cli_replace_retains_tag, mergeValues_inline_replace_retains_tag,
   mergeValues_cli_prepend_retains_tag, mergeValues_inline_prepend_retains_tag,
   mergeValues_custom_replace, applyDefaultMerge_seqs_untagged,
   applyDefaultMerge_maps_untagged⟩

theorem claimC5_merge_tag_stripping_witness :
    mergeValues .null
      (.tagged "!custom;merge:replace".toList (.str "x".toList)) [] [] =
      .ok (.tagged "!custom".toList (.str "x".toList)) :=
  claimC5_merge_tag_stripping.2.2.2.2.2.2.1 .null (.str "x".toList) [] [] rfl

-- =============================================================================
-- Claim C8: merging an empty / Null overlay document
-- =============================================================================

/-- A `Tagged` node whose inner value is `Null` (the one base shape for
which a `Null` overlay does not merge to the base itself). -/
def isTaggedNull : Value → Bool
  | .tagged _ .null => true
  | _ => false

/-- C8 counterexample.  With the CLI policy table `{"" : replace}` (an
entry for the merge root's empty dot-path), merging the `Null` overlay
document into base `{a: 1}` applies the root `Replace` policy and
returns `Null`, not the base: the identity claim fails for this policy
table. -/
theorem claimC8_counterexample :
    applyOverlays [.null] [([], .replace)]
      (.map [(.str "a".toList, .num (.uint 1))]) = .ok .null ∧
    Value.null ≠ Value.map [(.str "a".toList, .num (.uint 1))] := by
  constructor
  · simp [applyOverlays, mergeValues, extractMergeDirective, lookupPolicy,
      applyPolicy]
  · intro h
    cases h

/-- C8 as amended.  Merging a `Null` overlay document (an empty overlay
document is parsed to `Null` before the fold) is the identity on the
base, provided the policy table has no entry for the root path `""` (a
root entry routes the `Null` overlay through that policy) and the base is
not a `Tagged` node with `Null` inner value (for which the source's
`(Null, Null)` rule returns the overlay's plain `Null`, dropping the
base's tag). -/
theorem claimC8_null_overlay_identity (base : Value) (pols : Policies)
    (hp : lookupPolicy pols [] = none) (ht : isTaggedNull base = false) :
    applyOverlays [.null] pols base = .ok base := by
  have hmv : mergeValues base .null [] pols = .ok base := by
    simp only [mergeValues, extractMergeDirective, hp]
    cases base with
    | null => simp [applyDefaultMerge, stripTag]
    | tagged t v => cases v <;> simp_all [applyDefaultMerge, stripTag,
        isTaggedNull]
    | _ => simp [applyDefaultMerge, stripTag]
  simp [applyOverlays, hmv]

theorem claimC8_null_overlay_identity_witness :
    applyOverlays [.null] []
      (.map [(.str "a".toList, .num (.uint 1))]) =
      .ok (.map [(.str "a".toList, .num (.uint 1))]) :=
  claimC8_null_overlay_identity
    (.map [(.str "a".toList, .num (.uint 1))]) [] rfl rfl

end Shyaml
